import Mathlib

/-!
# Shallow embedding of the Ring Buffer library (`ring_buffer.c`)

This file embeds the C99 sources of the ring buffer library.  The primary
model is the rewind-capable variant (`struct _ring_buffer` with fields
`buffer, capacity, backlog, read, write, rewind` and the operations
`ring_buffer_create`, `ring_buffer_write`, `ring_buffer_read`,
`ring_buffer_rewind`, `ring_buffer_available`,
`ring_buffer_set_read_callback`, `ring_buffer_set_write_callback`).
The non-rewind variant (fields `buffer, capacity, read, write`) is embedded
with a `0` suffix on its names.

Modelling conventions:
* `size_t` values are modelled as `Nat`.  All subtractions appearing in the
  C code act, under the data-model invariants (`read ≤ write`,
  `backlog ≤ capacity`, `write - read ≤ capacity - backlog + rewind`), on
  non-negative quantities, where `Nat` truncated subtraction agrees with the
  C `size_t` computation.
* The physical store (`unsigned char* buffer`) is a function `Nat → Nat`
  from physical offsets to byte values; `malloc` leaves it uninitialized, so
  `ring_buffer_create` takes the initial contents as a parameter.
* Caller memory passed to `write` is a `List Nat` (the bytes at `data`);
  a `NULL` pointer is `Option.none`.  For `read` only the nullness of the
  caller pointer matters, and the bytes the loop stores through it are
  returned as a list.  Output pointers of `available` are modelled by their
  nullness (`Bool`).
* The copy loops are modelled by structural recursion on a fuel argument;
  `fuel = left` suffices whenever `capacity > 0`, because every iteration
  then transfers `min left (capacity - target) ≥ 1` bytes.  The C loop is a
  do-while, whose sole difference is one zero-size iteration when
  `length = 0`, which touches nothing; the check-first rendering is
  observationally identical.  Each loop also returns the list of
  `(target, size)` pairs of its iterations, so that the iteration structure
  itself can be reasoned about.
* Callbacks are modelled by their registration state (`Bool`) and
  threshold; an operation reports whether it invoked the callback.
* The mutex is not modelled (single-threaded semantics); the
  `RING_BUFFER_CONCURRENCY_ERROR` path never fires in the model.
-/

/-- Status codes, `ring_buffer_status` from `ring_buffer.h`. -/
inductive Status where
  | success
  | invalidAddress
  | outOfMemory
  | overflow
  | underflow
  | concurrencyError
deriving DecidableEq

/-- State of `struct _ring_buffer` in the rewind-capable variant: physical store,
`capacity`, `backlog`, cursors `read`, `write`, `rewind`, and the two
callback registrations (modelled by presence flag and threshold). -/
structure RingBuffer where
  capacity : Nat
  backlog : Nat
  buffer : Nat → Nat
  read : Nat
  write : Nat
  rewind : Nat
  readCallbackSet : Bool
  readThreshold : Nat
  writeCallbackSet : Bool
  writeThreshold : Nat

/-- The wraparound copy loop of `ring_buffer_write`:
`do { target = write % capacity; size = min(left, capacity - target);`
`memcpy(buffer + target, data + length - left, size); left -= size;`
`write += size; } while (left > 0);`
Returns the updated store, the updated `write` cursor, and the
`(target, size)` pair of every executed iteration, in order. -/
def writeLoop (cap : Nat) (data : List Nat) (length : Nat) :
    Nat → (Nat → Nat) → Nat → Nat → (Nat → Nat) × Nat × List (Nat × Nat)
  | 0, buf, w, _ => (buf, w, [])
  | fuel + 1, buf, w, left =>
    if left = 0 then (buf, w, [])
    else
      let target := w % cap
      let size := min left (cap - target)
      let buf' : Nat → Nat := fun i =>
        if target ≤ i ∧ i < target + size then data.getD (length - left + (i - target)) 0
        else buf i
      let r := writeLoop cap data length fuel buf' (w + size) (left - size)
      (r.1, r.2.1, (target, size) :: r.2.2)

/-- The wraparound copy loop of `ring_buffer_read`:
`do { target = read % capacity; size = min(left, capacity - target);`
`memcpy(data + length - left, buffer + target, size); left -= size;`
`read += size; } while (left > 0);`
Returns the bytes stored through the caller pointer (in address order,
which is iteration order), the updated `read` cursor, and the
`(target, size)` pair of every executed iteration. -/
def readLoop (cap : Nat) (buf : Nat → Nat) :
    Nat → Nat → Nat → List Nat × Nat × List (Nat × Nat)
  | 0, r, _ => ([], r, [])
  | fuel + 1, r, left =>
    if left = 0 then ([], r, [])
    else
      let target := r % cap
      let size := min left (cap - target)
      let chunk := (List.range size).map fun j => buf (target + j)
      let rest := readLoop cap buf fuel (r + size) (left - size)
      (chunk ++ rest.1, rest.2.1, (target, size) :: rest.2.2)

/-- Construction, `ring_buffer_create` (rewind variant): `read = write = rewind = 0`,
no callbacks registered.  `malloc` leaves the store uninitialized, so the
initial contents `init` are a parameter. -/
def ring_buffer_create (capacity backlog : Nat) (init : Nat → Nat) : RingBuffer :=
  { capacity := capacity
    backlog := backlog
    buffer := init
    read := 0
    write := 0
    rewind := 0
    readCallbackSet := false
    readThreshold := 0
    writeCallbackSet := false
    writeThreshold := 0 }

/-- Registration via `ring_buffer_set_read_callback`: replaces the callback and
threshold (`callbackSet = false` models passing `NULL`). -/
def ring_buffer_set_read_callback (ring : RingBuffer) (callbackSet : Bool)
    (threshold : Nat) : Status × RingBuffer :=
  (Status.success,
    { ring with readCallbackSet := callbackSet, readThreshold := threshold })

/-- Registration via `ring_buffer_set_write_callback`. -/
def ring_buffer_set_write_callback (ring : RingBuffer) (callbackSet : Bool)
    (threshold : Nat) : Status × RingBuffer :=
  (Status.success,
    { ring with writeCallbackSet := callbackSet, writeThreshold := threshold })

/-- Result of `ring_buffer_write`: status, post state, and whether the
read callback was invoked after the unlock. -/
structure WriteResult where
  status : Status
  ring : RingBuffer
  notified : Bool

/-- Writing, `ring_buffer_write` (rewind variant, lines 387–423): guard
`capacity - backlog + rewind - (write - read) >= length`, then the copy
loop; `notify` is set when the post-write `write - read` reaches the read
callback threshold, and the callback is invoked after unlock iff it is
registered and `notify` is set. -/
def ring_buffer_write (ring : RingBuffer) (data : Option (List Nat))
    (length : Nat) : WriteResult :=
  match data with
  | none => ⟨Status.invalidAddress, ring, false⟩
  | some d =>
    if ring.capacity - ring.backlog + ring.rewind - (ring.write - ring.read) ≥ length then
      let r := writeLoop ring.capacity d length length ring.buffer ring.write length
      let ring' := { ring with buffer := r.1, write := r.2.1 }
      let notify : Bool := decide (ring'.write - ring'.read ≥ ring.readThreshold)
      ⟨Status.success, ring', ring.readCallbackSet && notify⟩
    else
      ⟨Status.overflow, ring, false⟩

/-- Result of `ring_buffer_read`: status, post state, the bytes stored
through the caller pointer, and whether the write callback was invoked. -/
structure ReadResult where
  status : Status
  ring : RingBuffer
  data : List Nat
  notified : Bool

/-- Reading, `ring_buffer_read` (rewind variant, lines 426–467): guard
`write - read >= length`, the copy loop, then
`if (rewind < length) rewind = 0; else rewind -= length;`, and `notify`
when the post-read writable space reaches the write callback threshold. -/
def ring_buffer_read (ring : RingBuffer) (dataNull : Bool) (length : Nat) :
    ReadResult :=
  if dataNull then ⟨Status.invalidAddress, ring, [], false⟩
  else if ring.write - ring.read ≥ length then
    let r := readLoop ring.capacity ring.buffer length ring.read length
    let rewind' := if ring.rewind < length then 0 else ring.rewind - length
    let ring' := { ring with read := r.2.1, rewind := rewind' }
    let notify : Bool :=
      decide (ring.capacity - ring.backlog + rewind' - (ring.write - r.2.1) ≥ ring.writeThreshold)
    ⟨Status.success, ring', r.1, ring.writeCallbackSet && notify⟩
  else ⟨Status.underflow, ring, [], false⟩

/-- Rewinding, `ring_buffer_rewind` (lines 470–491): guard
`length <= backlog && length <= read`, then `read -= length;
rewind += length;`. -/
def ring_buffer_rewind (ring : RingBuffer) (length : Nat) : Status × RingBuffer :=
  if length ≤ ring.backlog ∧ length ≤ ring.read then
    (Status.success,
      { ring with read := ring.read - length, rewind := ring.rewind + length })
  else (Status.underflow, ring)

/-- Observation, `ring_buffer_available` (rewind variant, lines 494–512).  The null
guard covers only the ring and the `read`/`write` output pointers; when it
passes, the function stores `*read = write - read`,
`*write = capacity - backlog + rewind - *read`,
`*rewind = min(read, backlog - rewind)` — the last one unconditionally,
without consulting `rewindPtrNull`. -/
def ring_buffer_available (ringNull readPtrNull writePtrNull rewindPtrNull : Bool)
    (ring : RingBuffer) : Status × Option (Nat × Nat × Nat) :=
  if ¬ringNull ∧ ¬readPtrNull ∧ ¬writePtrNull then
    let readable := ring.write - ring.read
    let writable := ring.capacity - ring.backlog + ring.rewind - readable
    let rewindable := min ring.read (ring.backlog - ring.rewind)
    (Status.success, some (readable, writable, rewindable))
  else (Status.invalidAddress, none)

/-- State of `struct _ring_buffer` in the non-rewind variant. -/
structure RingBuffer0 where
  capacity : Nat
  buffer : Nat → Nat
  read : Nat
  write : Nat

/-- Construction, `ring_buffer_create` (non-rewind variant). -/
def ring_buffer_create0 (capacity : Nat) (init : Nat → Nat) : RingBuffer0 :=
  { capacity := capacity, buffer := init, read := 0, write := 0 }

/-- Writing, `ring_buffer_write` (non-rewind variant, lines 594–622): guard
`capacity - (write - read) >= length`, then the copy loop. -/
def ring_buffer_write0 (ring : RingBuffer0) (data : Option (List Nat))
    (length : Nat) : Status × RingBuffer0 :=
  match data with
  | none => (Status.invalidAddress, ring)
  | some d =>
    if ring.capacity - (ring.write - ring.read) ≥ length then
      let r := writeLoop ring.capacity d length length ring.buffer ring.write length
      (Status.success, { ring with buffer := r.1, write := r.2.1 })
    else (Status.overflow, ring)

/-- Reading, `ring_buffer_read` (non-rewind variant, lines 625–653). -/
def ring_buffer_read0 (ring : RingBuffer0) (dataNull : Bool) (length : Nat) :
    Status × RingBuffer0 × List Nat :=
  if dataNull then (Status.invalidAddress, ring, [])
  else if ring.write - ring.read ≥ length then
    let r := readLoop ring.capacity ring.buffer length ring.read length
    (Status.success, { ring with read := r.2.1 }, r.1)
  else (Status.underflow, ring, [])

/-- Observation, `ring_buffer_available` (non-rewind variant, lines 656–673):
`*read = write - read; *write = capacity - *read;`. -/
def ring_buffer_available0 (ringNull readPtrNull writePtrNull : Bool)
    (ring : RingBuffer0) : Status × Option (Nat × Nat) :=
  if ¬ringNull ∧ ¬readPtrNull ∧ ¬writePtrNull then
    let readable := ring.write - ring.read
    (Status.success, some (readable, ring.capacity - readable))
  else (Status.invalidAddress, none)

/-! ## Arithmetic helpers for wraparound indexing -/

theorem add_mod_of_lt (cap r j : Nat) (h : r % cap + j < cap) :
    (r + j) % cap = r % cap + j := by
  rw [Nat.add_mod, Nat.mod_eq_of_lt (show j < cap by omega), Nat.mod_eq_of_lt h]

theorem add_mod_inj (cap w a b : Nat) (ha : a < cap) (hb : b < cap)
    (h : (w + a) % cap = (w + b) % cap) : a = b := by
  have h1 : a % cap = b % cap := Nat.ModEq.add_left_cancel' w h
  rwa [Nat.mod_eq_of_lt ha, Nat.mod_eq_of_lt hb] at h1

theorem add_sub_mod_self (cap w : Nat) (hcap : 0 < cap) :
    (w + (cap - w % cap)) % cap = 0 := by
  have hd := Nat.div_add_mod w cap
  have hm : w % cap < cap := Nat.mod_lt _ hcap
  have h1 : w + (cap - w % cap) = cap * (w / cap) + cap := by omega
  rw [h1, Nat.mul_add_mod, Nat.mod_self]

/-! ## Copy-loop lemmas -/

/-- With positive capacity and enough fuel, the write loop advances the
`write` cursor by exactly `left`: all bytes are transferred. -/
theorem writeLoop_write_eq (cap : Nat) (d : List Nat) (n : Nat) :
    ∀ (fuel : Nat) (buf : Nat → Nat) (w left : Nat), 0 < cap → left ≤ fuel →
      (writeLoop cap d n fuel buf w left).2.1 = w + left := by
  intro fuel
  induction fuel with
  | zero =>
    intro buf w left _ h
    have : left = 0 := by omega
    subst this
    simp [writeLoop]
  | succ fuel ih =>
    intro buf w left hcap h
    by_cases h0 : left = 0
    · subst h0; simp [writeLoop]
    · have htl : w % cap < cap := Nat.mod_lt _ hcap
      have hs1 : 1 ≤ min left (cap - w % cap) := by omega
      have hsle : min left (cap - w % cap) ≤ left := Nat.min_le_left _ _
      rw [writeLoop]
      simp only [if_neg h0]
      rw [ih _ _ _ hcap (by omega)]
      omega

/-- Positions outside the logical window `[w, w + left)` (taken modulo
`cap`) are untouched by the write loop. -/
theorem writeLoop_buffer_other (cap : Nat) (d : List Nat) (n : Nat) :
    ∀ (fuel : Nat) (buf : Nat → Nat) (w left p : Nat),
      (∀ k, k < left → (w + k) % cap ≠ p) →
      (writeLoop cap d n fuel buf w left).1 p = buf p := by
  intro fuel
  induction fuel with
  | zero => intro buf w left p _; simp [writeLoop]
  | succ fuel ih =>
    intro buf w left p hp
    by_cases h0 : left = 0
    · subst h0; simp [writeLoop]
    · rw [writeLoop]
      simp only [if_neg h0]
      rw [ih]
      · by_cases hin : w % cap ≤ p ∧ p < w % cap + min left (cap - w % cap)
        · exfalso
          have hj : (w + (p - w % cap)) % cap = p := by
            rw [add_mod_of_lt cap w (p - w % cap) (by omega)]
            omega
          exact hp (p - w % cap) (by omega) hj
        · simp only [if_neg hin]
      · intro k hk
        have := hp (min left (cap - w % cap) + k) (by omega)
        rwa [← Nat.add_assoc] at this

/-- Bytes written by the write loop: for `i < left` the physical cell at
`(w + i) % cap` afterwards holds `d[(n - left) + i]`, provided the
transfer does not exceed the physical capacity. -/
theorem writeLoop_buffer_eq (cap : Nat) (d : List Nat) (n : Nat) :
    ∀ (fuel : Nat) (buf : Nat → Nat) (w left : Nat), 0 < cap → left ≤ fuel →
      left ≤ cap → left ≤ n →
      ∀ i, i < left →
        (writeLoop cap d n fuel buf w left).1 ((w + i) % cap) = d.getD (n - left + i) 0 := by
  intro fuel
  induction fuel with
  | zero => intro buf w left _ hf _ _ i hi; omega
  | succ fuel ih =>
    intro buf w left hcap hf hc hn i hi
    have h0 : left ≠ 0 := by omega
    have htl : w % cap < cap := Nat.mod_lt _ hcap
    rw [writeLoop]
    simp only [if_neg h0]
    set s := min left (cap - w % cap) with hs
    have hs1 : 1 ≤ s := by rw [hs]; omega
    have hsle : s ≤ left := Nat.min_le_left _ _
    have hscap : s ≤ cap - w % cap := Nat.min_le_right _ _
    by_cases hcase : i < s
    · have hpi : (w + i) % cap = w % cap + i := by
        apply add_mod_of_lt
        omega
      have hother : ∀ k, k < left - s → (w + s + k) % cap ≠ (w + i) % cap := by
        intro k hk heq
        rw [Nat.add_assoc] at heq
        have := add_mod_inj cap w (s + k) i (by omega) (by omega) heq
        omega
      rw [writeLoop_buffer_other cap d n fuel _ (w + s) (left - s) _ hother, hpi]
      show (if w % cap ≤ w % cap + i ∧ w % cap + i < w % cap + s
            then d.getD (n - left + (w % cap + i - w % cap)) 0
            else buf (w % cap + i)) = d.getD (n - left + i) 0
      rw [if_pos ⟨Nat.le_add_right _ _, by omega⟩]
      congr 1
      omega
    · have hi2 : (w + i) % cap = (w + s + (i - s)) % cap := by
        congr 1
        omega
      rw [hi2, ih _ _ _ hcap (by omega) (by omega) (by omega) _ (by omega)]
      congr 1
      omega

/-- With positive capacity and enough fuel, the read loop advances the
`read` cursor by exactly `left`. -/
theorem readLoop_read_eq (cap : Nat) (buf : Nat → Nat) :
    ∀ (fuel : Nat) (r left : Nat), 0 < cap → left ≤ fuel →
      (readLoop cap buf fuel r left).2.1 = r + left := by
  intro fuel
  induction fuel with
  | zero =>
    intro r left _ h
    have : left = 0 := by omega
    subst this
    simp [readLoop]
  | succ fuel ih =>
    intro r left hcap h
    by_cases h0 : left = 0
    · subst h0; simp [readLoop]
    · have htl : r % cap < cap := Nat.mod_lt _ hcap
      have hs1 : 1 ≤ min left (cap - r % cap) := by omega
      have hsle : min left (cap - r % cap) ≤ left := Nat.min_le_left _ _
      rw [readLoop]
      simp only [if_neg h0]
      rw [ih _ _ hcap (by omega)]
      omega

/-- The bytes the read loop stores through the caller pointer are exactly
the physical cells at `(r + i) % cap` for `i < left`, in order. -/
theorem readLoop_data_eq (cap : Nat) (buf : Nat → Nat) :
    ∀ (fuel : Nat) (r left : Nat), 0 < cap → left ≤ fuel →
      (readLoop cap buf fuel r left).1
        = (List.range left).map fun i => buf ((r + i) % cap) := by
  intro fuel
  induction fuel with
  | zero =>
    intro r left _ h
    have : left = 0 := by omega
    subst this
    simp [readLoop]
  | succ fuel ih =>
    intro r left hcap h
    by_cases h0 : left = 0
    · subst h0; simp [readLoop]
    · have htl : r % cap < cap := Nat.mod_lt _ hcap
      have hs1 : 1 ≤ min left (cap - r % cap) := by omega
      have hsle : min left (cap - r % cap) ≤ left := Nat.min_le_left _ _
      rw [readLoop]
      simp only [if_neg h0]
      rw [ih _ _ hcap (by omega)]
      have hsplit : left = min left (cap - r % cap) + (left - min left (cap - r % cap)) := by
        omega
      conv_rhs => rw [hsplit]
      rw [List.range_add, List.map_append, List.map_map]
      congr 1
      · apply List.map_congr_left
        intro j hj
        rw [List.mem_range] at hj
        rw [add_mod_of_lt cap r j (by omega)]
      · apply List.map_congr_left
        intro j hj
        simp only [Function.comp]
        congr 1
        rw [Nat.add_assoc]

/-- Iteration trace of the write loop: with positive capacity, a transfer
of `left ≤ cap` bytes runs zero iterations (nothing to copy), one
iteration when it fits before the physical end, or exactly two, the
second starting at physical offset `0`. -/
theorem writeLoop_trace_eq (cap : Nat) (d : List Nat) (n : Nat) :
    ∀ (fuel : Nat) (buf : Nat → Nat) (w left : Nat), 0 < cap → left ≤ fuel →
      left ≤ cap →
      (writeLoop cap d n fuel buf w left).2.2 =
        if left = 0 then []
        else if left ≤ cap - w % cap then [(w % cap, left)]
        else [(w % cap, cap - w % cap), (0, left - (cap - w % cap))] := by
  intro fuel
  induction fuel with
  | zero =>
    intro buf w left _ hf _
    have : left = 0 := by omega
    subst this
    simp [writeLoop]
  | succ fuel ih =>
    intro buf w left hcap hf hc
    by_cases h0 : left = 0
    · subst h0; simp [writeLoop]
    · have htl : w % cap < cap := Nat.mod_lt _ hcap
      rw [writeLoop]
      simp only [if_neg h0]
      by_cases hone : left ≤ cap - w % cap
      · have hmin : min left (cap - w % cap) = left := Nat.min_eq_left hone
        rw [hmin, ih _ _ _ hcap (by omega) (by omega)]
        simp [h0, hone]
      · have hmin : min left (cap - w % cap) = cap - w % cap := by
          apply Nat.min_eq_right
          omega
        rw [hmin, ih _ _ _ hcap (by omega) (by omega)]
        have hz : (w + (cap - w % cap)) % cap = 0 := add_sub_mod_self cap w hcap
        rw [hz]
        have hnz : ¬(left - (cap - w % cap) = 0) := by omega
        rw [if_neg hnz, if_pos (by omega : left - (cap - w % cap) ≤ cap - 0)]
        simp [h0, hone]

/-- Iteration trace of the read loop (same shape as the write loop). -/
theorem readLoop_trace_eq (cap : Nat) (buf : Nat → Nat) :
    ∀ (fuel : Nat) (r left : Nat), 0 < cap → left ≤ fuel → left ≤ cap →
      (readLoop cap buf fuel r left).2.2 =
        if left = 0 then []
        else if left ≤ cap - r % cap then [(r % cap, left)]
        else [(r % cap, cap - r % cap), (0, left - (cap - r % cap))] := by
  intro fuel
  induction fuel with
  | zero =>
    intro r left _ hf _
    have : left = 0 := by omega
    subst this
    simp [readLoop]
  | succ fuel ih =>
    intro r left hcap hf hc
    by_cases h0 : left = 0
    · subst h0; simp [readLoop]
    · have htl : r % cap < cap := Nat.mod_lt _ hcap
      rw [readLoop]
      simp only [if_neg h0]
      by_cases hone : left ≤ cap - r % cap
      · have hmin : min left (cap - r % cap) = left := Nat.min_eq_left hone
        rw [hmin, ih _ _ hcap (by omega) (by omega)]
        simp [h0, hone]
      · have hmin : min left (cap - r % cap) = cap - r % cap := by
          apply Nat.min_eq_right
          omega
        rw [hmin, ih _ _ hcap (by omega) (by omega)]
        have hz : (r + (cap - r % cap)) % cap = 0 := add_sub_mod_self cap r hcap
        rw [hz]
        have hnz : ¬(left - (cap - r % cap) = 0) := by omega
        rw [if_neg hnz, if_pos (by omega : left - (cap - r % cap) ≤ cap - 0)]
        simp [h0, hone]

/-! ## Operation sequences and reachable states -/

/-- A single API call on the rewind-capable Ring Store (with valid caller
memory): `write` passes the bytes `data` with `length = data.length`. -/
inductive Op where
  | write (data : List Nat)
  | read (length : Nat)
  | rewind (length : Nat)

/-- Execute one call, returning its status and the post state. -/
def runOp (st : RingBuffer) (op : Op) : Status × RingBuffer :=
  match op with
  | Op.write d => let r := ring_buffer_write st (some d) d.length; (r.status, r.ring)
  | Op.read len => let r := ring_buffer_read st false len; (r.status, r.ring)
  | Op.rewind len => ring_buffer_rewind st len

/-- Execute a sequence of calls, requiring every call to succeed
(`none` as soon as one fails). -/
def runOpsChecked : RingBuffer → List Op → Option RingBuffer
  | st, [] => some st
  | st, op :: ops =>
    let r := runOp st op
    if r.1 = Status.success then runOpsChecked r.2 ops else none

/-- A single API call on the non-rewind variant. -/
inductive Op0 where
  | write (data : List Nat)
  | read (length : Nat)

/-- Execute one call on the non-rewind variant. -/
def runOp0 (st : RingBuffer0) (op : Op0) : Status × RingBuffer0 :=
  match op with
  | Op0.write d => ring_buffer_write0 st (some d) d.length
  | Op0.read len => let r := ring_buffer_read0 st false len; (r.1, r.2.1)

/-- Execute a sequence of calls on the non-rewind variant, requiring every
call to succeed. -/
def runOpsChecked0 : RingBuffer0 → List Op0 → Option RingBuffer0
  | st, [] => some st
  | st, op :: ops =>
    let r := runOp0 st op
    if r.1 = Status.success then runOpsChecked0 r.2 ops else none

/-- A sequence of reads (all required to succeed), returning the byte
lists obtained and the final state. -/
def readMany : RingBuffer → List Nat → Option (List (List Nat) × RingBuffer)
  | st, [] => some ([], st)
  | st, len :: lens =>
    let r := ring_buffer_read st false len
    if r.status = Status.success then
      match readMany r.ring lens with
      | some (outs, st') => some (r.data :: outs, st')
      | none => none
    else none

/-- The state invariant of the rewind-capable Ring Store: positive
capacity, `backlog ≤ capacity`, `read + rewind ≤ write`, and the
spendable-capacity bound `(write - read) + backlog ≤ capacity + rewind`
(i.e. `readable ≤ capacity - backlog + rewind`). -/
def RingInv (st : RingBuffer) : Prop :=
  0 < st.capacity ∧ st.backlog ≤ st.capacity ∧
    st.read + st.rewind ≤ st.write ∧
    st.write - st.read + st.backlog ≤ st.capacity + st.rewind

/-- The state invariant of the non-rewind variant. -/
def RingInv0 (st : RingBuffer0) : Prop :=
  0 < st.capacity ∧ st.read ≤ st.write ∧ st.write - st.read ≤ st.capacity

theorem inv_create (capacity backlog : Nat) (init : Nat → Nat)
    (hcap : 0 < capacity) (hback : backlog ≤ capacity) :
    RingInv (ring_buffer_create capacity backlog init) := by
  refine ⟨hcap, hback, ?_, ?_⟩ <;> simp [ring_buffer_create]
  omega

/-- A successful `ring_buffer_write` preserves the invariant; its status
is `success` or `overflow`, and on failure the state is unchanged. -/
theorem inv_write (st : RingBuffer) (d : List Nat) (h : RingInv st) :
    RingInv (ring_buffer_write st (some d) d.length).ring := by
  obtain ⟨hcap, hback, hrw, hcb⟩ := h
  rw [ring_buffer_write]
  by_cases hg : st.capacity - st.backlog + st.rewind - (st.write - st.read) ≥ d.length
  · simp only [if_pos hg]
    refine ⟨hcap, hback, ?_, ?_⟩ <;>
      simp only [writeLoop_write_eq st.capacity d d.length d.length st.buffer st.write
        d.length hcap (Nat.le_refl _)] <;> omega
  · simp only [if_neg hg]
    exact ⟨hcap, hback, hrw, hcb⟩

/-- Reading preserves the invariant. -/
theorem inv_read (st : RingBuffer) (len : Nat) (h : RingInv st) :
    RingInv (ring_buffer_read st false len).ring := by
  obtain ⟨hcap, hback, hrw, hcb⟩ := h
  rw [ring_buffer_read]
  by_cases hg : st.write - st.read ≥ len
  · simp only [if_neg (by decide : ¬(false = true)), if_pos hg]
    refine ⟨hcap, hback, ?_, ?_⟩ <;>
      simp only [readLoop_read_eq st.capacity st.buffer len st.read len hcap
        (Nat.le_refl _)] <;>
      split <;> omega
  · simp only [if_neg (by decide : ¬(false = true)), if_neg hg]
    exact ⟨hcap, hback, hrw, hcb⟩

/-- Rewinding preserves the invariant. -/
theorem inv_rewind (st : RingBuffer) (len : Nat) (h : RingInv st) :
    RingInv (ring_buffer_rewind st len).2 := by
  obtain ⟨hcap, hback, hrw, hcb⟩ := h
  rw [ring_buffer_rewind]
  by_cases hg : len ≤ st.backlog ∧ len ≤ st.read
  · simp only [if_pos hg]
    refine ⟨hcap, hback, ?_, ?_⟩ <;> (dsimp only; omega)
  · simp only [if_neg hg]
    exact ⟨hcap, hback, hrw, hcb⟩

theorem inv_runOp (st : RingBuffer) (op : Op) (h : RingInv st) :
    RingInv (runOp st op).2 := by
  cases op with
  | write d => exact inv_write st d h
  | read len => exact inv_read st len h
  | rewind len => exact inv_rewind st len h

/-- Operations never change `capacity` or `backlog`. -/
theorem runOp_capacity_backlog (st : RingBuffer) (op : Op) :
    (runOp st op).2.capacity = st.capacity ∧ (runOp st op).2.backlog = st.backlog := by
  cases op with
  | write d =>
    rw [runOp, ring_buffer_write]
    by_cases hg : st.capacity - st.backlog + st.rewind - (st.write - st.read) ≥ d.length <;>
      simp [hg]
  | read len =>
    rw [runOp, ring_buffer_read]
    by_cases hg : st.write - st.read ≥ len <;> simp [hg]
  | rewind len =>
    rw [runOp, ring_buffer_rewind]
    by_cases hg : len ≤ st.backlog ∧ len ≤ st.read <;> simp [hg]

/-- States reached by successful call sequences satisfy the invariant and
keep the construction-time `capacity` and `backlog`. -/
theorem inv_runOpsChecked :
    ∀ (ops : List Op) (st st' : RingBuffer), RingInv st →
      runOpsChecked st ops = some st' →
      RingInv st' ∧ st'.capacity = st.capacity ∧ st'.backlog = st.backlog := by
  intro ops
  induction ops with
  | nil =>
    intro st st' h hrun
    rw [runOpsChecked] at hrun
    cases hrun
    exact ⟨h, rfl, rfl⟩
  | cons op ops ih =>
    intro st st' h hrun
    rw [runOpsChecked] at hrun
    by_cases hs : (runOp st op).1 = Status.success
    · simp only [if_pos hs] at hrun
      obtain ⟨h1, h2, h3⟩ := ih _ _ (inv_runOp st op h) hrun
      obtain ⟨h4, h5⟩ := runOp_capacity_backlog st op
      exact ⟨h1, by omega, by omega⟩
    · simp only [if_neg hs] at hrun
      cases hrun

theorem inv_runOp0 (st : RingBuffer0) (op : Op0) (h : RingInv0 st) :
    RingInv0 (runOp0 st op).2 ∧ (runOp0 st op).2.capacity = st.capacity := by
  obtain ⟨hcap, hwr, hcb⟩ := h
  cases op with
  | write d =>
    rw [runOp0, ring_buffer_write0]
    by_cases hg : st.capacity - (st.write - st.read) ≥ d.length
    · simp only [if_pos hg]
      refine ⟨⟨hcap, ?_, ?_⟩, trivial⟩ <;>
        simp only [writeLoop_write_eq st.capacity d d.length d.length st.buffer st.write
          d.length hcap (Nat.le_refl _)] <;> omega
    · simp only [if_neg hg]
      exact ⟨⟨hcap, hwr, hcb⟩, trivial⟩
  | read len =>
    rw [runOp0, ring_buffer_read0]
    simp only [if_neg (by decide : ¬(false = true))]
    by_cases hg : st.write - st.read ≥ len
    · simp only [if_pos hg]
      refine ⟨⟨hcap, ?_, ?_⟩, trivial⟩ <;>
        simp only [readLoop_read_eq st.capacity st.buffer len st.read len hcap
          (Nat.le_refl _)] <;> omega
    · simp only [if_neg hg]
      exact ⟨⟨hcap, hwr, hcb⟩, trivial⟩

theorem inv_runOpsChecked0 :
    ∀ (ops : List Op0) (st st' : RingBuffer0), RingInv0 st →
      runOpsChecked0 st ops = some st' →
      RingInv0 st' ∧ st'.capacity = st.capacity := by
  intro ops
  induction ops with
  | nil =>
    intro st st' h hrun
    rw [runOpsChecked0] at hrun
    cases hrun
    exact ⟨h, rfl⟩
  | cons op ops ih =>
    intro st st' h hrun
    rw [runOpsChecked0] at hrun
    by_cases hs : (runOp0 st op).1 = Status.success
    · simp only [if_pos hs] at hrun
      obtain ⟨h1, h2⟩ := ih _ _ (inv_runOp0 st op h).1 hrun
      exact ⟨h1, by rw [h2, (inv_runOp0 st op h).2]⟩
    · simp only [if_neg hs] at hrun
      cases hrun

/-- Mapping `getD` over `range` of a list's length recovers the list. -/
theorem map_getD_range (S : List Nat) :
    (List.range S.length).map (fun i => S.getD i 0) = S := by
  apply List.ext_getElem
  · simp
  · intro i h1 h2
    simp only [List.getElem_map, List.getElem_range]
    rw [List.getD_eq_getElem]

/-- Characterisation of a successful `ring_buffer_read`: the guard holds,
cursors move as in the source, the store is untouched, and the bytes
delivered are the physical window at the pre-state `read` cursor. -/
theorem read_success_parts (st : RingBuffer) (len : Nat) (hcap : 0 < st.capacity)
    (hg : len ≤ st.write - st.read) :
    (ring_buffer_read st false len).status = Status.success ∧
    (ring_buffer_read st false len).ring.read = st.read + len ∧
    (ring_buffer_read st false len).ring.write = st.write ∧
    (ring_buffer_read st false len).ring.buffer = st.buffer ∧
    (ring_buffer_read st false len).ring.capacity = st.capacity ∧
    (ring_buffer_read st false len).data
      = (List.range len).map (fun i => st.buffer ((st.read + i) % st.capacity)) := by
  rw [ring_buffer_read, if_neg (by decide : ¬(false = true)), if_pos hg]
  refine ⟨rfl, ?_, rfl, rfl, rfl, ?_⟩
  · exact readLoop_read_eq st.capacity st.buffer len st.read len hcap (Nat.le_refl _)
  · exact readLoop_data_eq st.capacity st.buffer len st.read len hcap (Nat.le_refl _)

/-- A sequence of reads whose lengths sum to at most the readable count
all succeed, drain `lens.sum` logical bytes in order, and concatenate to
the physical window starting at the pre-state `read` cursor.  The
physical store is untouched. -/
theorem readMany_spec :
    ∀ (lens : List Nat) (st : RingBuffer), 0 < st.capacity →
      st.read ≤ st.write → lens.sum ≤ st.write - st.read →
      ∃ outs st', readMany st lens = some (outs, st') ∧
        outs.flatten = (List.range lens.sum).map
          (fun i => st.buffer ((st.read + i) % st.capacity)) ∧
        st'.buffer = st.buffer ∧ st'.read = st.read + lens.sum ∧
        st'.write = st.write := by
  intro lens
  induction lens with
  | nil =>
    intro st hcap hwr hsum
    exact ⟨[], st, rfl, by simp, rfl, by simp, rfl⟩
  | cons len lens ih =>
    intro st hcap hwr hsum
    rw [List.sum_cons] at hsum
    have hg : len ≤ st.write - st.read := by omega
    obtain ⟨hs, hrd, hwrt, hbuf, hc, hdata⟩ := read_success_parts st len hcap hg
    obtain ⟨outs, st', hrun, hjoin, hbuf', hrd', hwrt'⟩ :=
      ih (ring_buffer_read st false len).ring (by rw [hc]; exact hcap)
        (by rw [hrd, hwrt]; omega) (by rw [hrd, hwrt]; omega)
    refine ⟨(ring_buffer_read st false len).data :: outs, st', ?_, ?_, ?_, ?_, ?_⟩
    · rw [readMany]
      simp only [hs, hrun, if_true]
    · rw [List.flatten_cons, hjoin, hdata, hbuf, hrd, hc, List.sum_cons,
        List.range_add, List.map_append, List.map_map]
      congr 1
      apply List.map_congr_left
      intro j hj
      simp only [Function.comp]
      congr 1
      rw [Nat.add_assoc]
    · rw [hbuf', hbuf]
    · rw [hrd', hrd, List.sum_cons]
      omega
    · rw [hwrt', hwrt]

/-- Characterisation of a successful `ring_buffer_write` of the whole list
`d`: cursors move as in the source, and for `d.length ≤ capacity` the
physical cells at `(write + i) % capacity` afterwards hold `d[i]`. -/
theorem write_success_parts (st : RingBuffer) (d : List Nat) (hcap : 0 < st.capacity)
    (hg : st.capacity - st.backlog + st.rewind - (st.write - st.read) ≥ d.length) :
    (ring_buffer_write st (some d) d.length).status = Status.success ∧
    (ring_buffer_write st (some d) d.length).ring.write = st.write + d.length ∧
    (ring_buffer_write st (some d) d.length).ring.read = st.read ∧
    (ring_buffer_write st (some d) d.length).ring.rewind = st.rewind ∧
    (ring_buffer_write st (some d) d.length).ring.capacity = st.capacity ∧
    (d.length ≤ st.capacity →
      ∀ i, i < d.length →
        (ring_buffer_write st (some d) d.length).ring.buffer ((st.write + i) % st.capacity)
          = d.getD i 0) := by
  rw [ring_buffer_write, if_pos hg]
  refine ⟨rfl, ?_, rfl, rfl, rfl, ?_⟩
  · exact writeLoop_write_eq st.capacity d d.length d.length st.buffer st.write d.length
      hcap (Nat.le_refl _)
  · intro hlen i hi
    have h := writeLoop_buffer_eq st.capacity d d.length d.length st.buffer st.write
      d.length hcap (Nat.le_refl _) hlen (Nat.le_refl _) i hi
    simpa using h

/-- C1: a byte sequence `S` written successfully into the Ring Store and
read back by successful reads whose lengths sum to `len(S)` comes back
equal to `S`, in order, including across the physical wraparound boundary
(the cursors `st.read = st.write` are arbitrary, so the transfer may
straddle `write_pos mod capacity` wrapping to `0`). -/
theorem data_round_trip (st : RingBuffer) (S : List Nat) (lens : List Nat)
    (hcap : 0 < st.capacity) (hback : st.backlog ≤ st.capacity)
    (hrb : st.rewind ≤ st.backlog)
    (hempty : st.read = st.write)
    (hsum : lens.sum = S.length)
    (hok : (ring_buffer_write st (some S) S.length).status = Status.success) :
    ∃ outs st',
      readMany (ring_buffer_write st (some S) S.length).ring lens = some (outs, st') ∧
      outs.flatten = S := by
  have hg : st.capacity - st.backlog + st.rewind - (st.write - st.read) ≥ S.length := by
    by_contra hgg
    rw [ring_buffer_write, if_neg hgg] at hok
    cases hok
  obtain ⟨hs, hwrt, hrd, hrw, hc, hbuf⟩ := write_success_parts st S hcap hg
  have hlen : S.length ≤ st.capacity := by omega
  obtain ⟨outs, st', hrun, hjoin, _, _, _⟩ :=
    readMany_spec lens (ring_buffer_write st (some S) S.length).ring
      (by rw [hc]; exact hcap) (by rw [hrd, hwrt]; omega)
      (by rw [hrd, hwrt, hsum]; omega)
  refine ⟨outs, st', hrun, ?_⟩
  rw [hjoin, hrd, hc, hsum, hempty]
  have hmap : List.map (fun i => (ring_buffer_write st (some S) S.length).ring.buffer
      ((st.write + i) % st.capacity)) (List.range S.length)
      = List.map (fun i => S.getD i 0) (List.range S.length) := by
    apply List.map_congr_left
    intro i hi
    rw [List.mem_range] at hi
    exact hbuf hlen i hi
  rw [hmap, map_getD_range S]

/-- Witness for C1: capacity 4, cursors already at logical position 3, so
the 2-byte write occupies physical cells 3 and 0 (wraparound), and two
1-byte reads recover the data. -/
theorem data_round_trip_witness :
    ∃ outs st',
      readMany (ring_buffer_write ⟨4, 0, fun _ => 0, 3, 3, 0, false, 0, false, 0⟩
          (some [7, 9]) [7, 9].length).ring [1, 1] = some (outs, st') ∧
      outs.flatten = [7, 9] :=
  data_round_trip ⟨4, 0, fun _ => 0, 3, 3, 0, false, 0, false, 0⟩ [7, 9] [1, 1]
    (by decide) (by decide) (by decide) rfl (by decide) (by decide)

/-- C2: with a non-null data pointer, `ring_buffer_write` fails with
`Overflow` iff `writable = capacity - backlog + rewind - (write - read)`
is below `length`; on that failure the whole state (store included) is
unchanged and the callback is not invoked; on success `write` grows by
exactly `length` and neither `read` nor `rewind` changes. -/
theorem write_contract (st : RingBuffer) (d : List Nat) (len : Nat)
    (hcap : 0 < st.capacity) :
    ((ring_buffer_write st (some d) len).status = Status.overflow ↔
      st.capacity - st.backlog + st.rewind - (st.write - st.read) < len) ∧
    ((ring_buffer_write st (some d) len).status = Status.overflow →
      (ring_buffer_write st (some d) len).ring = st ∧
      (ring_buffer_write st (some d) len).notified = false) ∧
    ((ring_buffer_write st (some d) len).status = Status.success →
      (ring_buffer_write st (some d) len).ring.write = st.write + len ∧
      (ring_buffer_write st (some d) len).ring.read = st.read ∧
      (ring_buffer_write st (some d) len).ring.rewind = st.rewind ∧
      (ring_buffer_write st (some d) len).ring.capacity = st.capacity ∧
      (ring_buffer_write st (some d) len).ring.backlog = st.backlog) := by
  rw [ring_buffer_write]
  by_cases hg : st.capacity - st.backlog + st.rewind - (st.write - st.read) ≥ len
  · rw [if_pos hg]
    refine ⟨⟨nofun, fun h => by omega⟩, nofun, fun _ => ?_⟩
    refine ⟨?_, rfl, rfl, rfl, rfl⟩
    exact writeLoop_write_eq st.capacity d len len st.buffer st.write len hcap (Nat.le_refl _)
  · rw [if_neg hg]
    exact ⟨⟨fun _ => by omega, fun _ => rfl⟩, fun _ => ⟨rfl, rfl⟩, nofun⟩

/-- Witness for C2 at capacity 6, a half-full buffer state. -/
theorem write_contract_witness :
    ((ring_buffer_write ⟨6, 0, fun _ => 0, 1, 4, 0, false, 0, false, 0⟩ (some [1, 2])
        2).status = Status.overflow ↔ 6 - 0 + 0 - (4 - 1) < 2) ∧
    ((ring_buffer_write ⟨6, 0, fun _ => 0, 1, 4, 0, false, 0, false, 0⟩ (some [1, 2])
        2).status = Status.overflow →
      (ring_buffer_write ⟨6, 0, fun _ => 0, 1, 4, 0, false, 0, false, 0⟩ (some [1, 2])
        2).ring = ⟨6, 0, fun _ => 0, 1, 4, 0, false, 0, false, 0⟩ ∧
      (ring_buffer_write ⟨6, 0, fun _ => 0, 1, 4, 0, false, 0, false, 0⟩ (some [1, 2])
        2).notified = false) ∧
    ((ring_buffer_write ⟨6, 0, fun _ => 0, 1, 4, 0, false, 0, false, 0⟩ (some [1, 2])
        2).status = Status.success →
      (ring_buffer_write ⟨6, 0, fun _ => 0, 1, 4, 0, false, 0, false, 0⟩ (some [1, 2])
        2).ring.write = 4 + 2 ∧
      (ring_buffer_write ⟨6, 0, fun _ => 0, 1, 4, 0, false, 0, false, 0⟩ (some [1, 2])
        2).ring.read = 1 ∧
      (ring_buffer_write ⟨6, 0, fun _ => 0, 1, 4, 0, false, 0, false, 0⟩ (some [1, 2])
        2).ring.rewind = 0 ∧
      (ring_buffer_write ⟨6, 0, fun _ => 0, 1, 4, 0, false, 0, false, 0⟩ (some [1, 2])
        2).ring.capacity = 6 ∧
      (ring_buffer_write ⟨6, 0, fun _ => 0, 1, 4, 0, false, 0, false, 0⟩ (some [1, 2])
        2).ring.backlog = 0) :=
  write_contract ⟨6, 0, fun _ => 0, 1, 4, 0, false, 0, false, 0⟩ [1, 2] 2 (by decide)

/-- C3: with a non-null data pointer, `ring_buffer_read` fails with
`Underflow` iff `readable = write - read` is below `length`, with no
output and no state change on failure; on success `read` grows by exactly
`length` and `rewind` becomes `max 0 (rewind - length)` (bytes read
consume rewind credit first, saturating at zero). -/
theorem read_contract (st : RingBuffer) (len : Nat) (hcap : 0 < st.capacity) :
    ((ring_buffer_read st false len).status = Status.underflow ↔
      st.write - st.read < len) ∧
    ((ring_buffer_read st false len).status = Status.underflow →
      (ring_buffer_read st false len).ring = st ∧
      (ring_buffer_read st false len).data = []) ∧
    ((ring_buffer_read st false len).status = Status.success →
      (ring_buffer_read st false len).ring.read = st.read + len ∧
      (ring_buffer_read st false len).ring.write = st.write ∧
      ((ring_buffer_read st false len).ring.rewind : Int)
        = max 0 ((st.rewind : Int) - (len : Int))) := by
  rw [ring_buffer_read, if_neg (by decide : ¬(false = true))]
  by_cases hg : st.write - st.read ≥ len
  · rw [if_pos hg]
    refine ⟨⟨nofun, fun h => by omega⟩, nofun, fun _ => ?_⟩
    refine ⟨?_, rfl, ?_⟩
    · exact readLoop_read_eq st.capacity st.buffer len st.read len hcap (Nat.le_refl _)
    · dsimp only
      split <;> rename_i hcc <;> omega
  · rw [if_neg hg]
    exact ⟨⟨fun _ => by omega, fun _ => rfl⟩, fun _ => ⟨rfl, rfl⟩, nofun⟩

/-- Witness for C3: reading 2 bytes from a state with 3 readable bytes
and 1 unit of rewind credit. -/
theorem read_contract_witness :
    ((ring_buffer_read ⟨6, 2, fun _ => 0, 2, 5, 1, false, 0, false, 0⟩ false
        2).status = Status.underflow ↔ 5 - 2 < 2) ∧
    ((ring_buffer_read ⟨6, 2, fun _ => 0, 2, 5, 1, false, 0, false, 0⟩ false
        2).status = Status.underflow →
      (ring_buffer_read ⟨6, 2, fun _ => 0, 2, 5, 1, false, 0, false, 0⟩ false
        2).ring = ⟨6, 2, fun _ => 0, 2, 5, 1, false, 0, false, 0⟩ ∧
      (ring_buffer_read ⟨6, 2, fun _ => 0, 2, 5, 1, false, 0, false, 0⟩ false
        2).data = []) ∧
    ((ring_buffer_read ⟨6, 2, fun _ => 0, 2, 5, 1, false, 0, false, 0⟩ false
        2).status = Status.success →
      (ring_buffer_read ⟨6, 2, fun _ => 0, 2, 5, 1, false, 0, false, 0⟩ false
        2).ring.read = 2 + 2 ∧
      (ring_buffer_read ⟨6, 2, fun _ => 0, 2, 5, 1, false, 0, false, 0⟩ false
        2).ring.write = 5 ∧
      ((ring_buffer_read ⟨6, 2, fun _ => 0, 2, 5, 1, false, 0, false, 0⟩ false
        2).ring.rewind : Int) = max 0 ((1 : Int) - (2 : Int))) :=
  read_contract ⟨6, 2, fun _ => 0, 2, 5, 1, false, 0, false, 0⟩ 2 (by decide)

/-- C4: `ring_buffer_rewind` fails with `Underflow` iff `length > backlog`
or `length > read_pos`; on success `read_pos` drops by `length` and
`rewind_credit` grows by `length`.  Concrete scenario: capacity 8,
backlog 2, after writing 3 bytes and reading 1, `available` reports
`(2, 4, 1)` and `rewind(2)` fails with `Underflow`. -/
theorem rewind_contract (st : RingBuffer) (len : Nat) :
    ((ring_buffer_rewind st len).1 = Status.underflow ↔
      (st.backlog < len ∨ st.read < len)) ∧
    ((ring_buffer_rewind st len).1 = Status.success →
      (ring_buffer_rewind st len).2.read + len = st.read ∧
      (ring_buffer_rewind st len).2.rewind = st.rewind + len) ∧
    ring_buffer_available false false false false
        (ring_buffer_read
          (ring_buffer_write (ring_buffer_create 8 2 (fun _ => 0)) (some [1, 2, 3]) 3).ring
          false 1).ring
      = (Status.success, some (2, 4, 1)) ∧
    (ring_buffer_rewind
        (ring_buffer_read
          (ring_buffer_write (ring_buffer_create 8 2 (fun _ => 0)) (some [1, 2, 3]) 3).ring
          false 1).ring 2).1
      = Status.underflow := by
  refine ⟨?_, ?_, by decide, by decide⟩ <;> rw [ring_buffer_rewind]
  · by_cases hg : len ≤ st.backlog ∧ len ≤ st.read
    · rw [if_pos hg]
      exact ⟨nofun, fun h => by omega⟩
    · rw [if_neg hg]
      exact ⟨fun _ => by omega, fun _ => rfl⟩
  · by_cases hg : len ≤ st.backlog ∧ len ≤ st.read
    · rw [if_pos hg]
      intro
      refine ⟨?_, rfl⟩
      dsimp only
      omega
    · rw [if_neg hg]
      intro h
      cases h

/-- C6: a `write` failing with `Overflow`, a `read` failing with
`Underflow` and a `rewind` failing with `Underflow` each leave the entire
state — and hence the result of `available` — exactly as before the call,
and transfer no bytes (the store is part of the state; the failing read
delivers nothing). -/
theorem failure_atomicity (st : RingBuffer) (d : List Nat) (len len2 len3 : Nat)
    (hw : (ring_buffer_write st (some d) len).status = Status.overflow)
    (hr : (ring_buffer_read st false len2).status = Status.underflow)
    (hrw : (ring_buffer_rewind st len3).1 = Status.underflow) :
    (ring_buffer_write st (some d) len).ring = st ∧
    (ring_buffer_read st false len2).ring = st ∧
    (ring_buffer_read st false len2).data = [] ∧
    (ring_buffer_rewind st len3).2 = st ∧
    ring_buffer_available false false false false (ring_buffer_write st (some d) len).ring
      = ring_buffer_available false false false false st ∧
    ring_buffer_available false false false false (ring_buffer_read st false len2).ring
      = ring_buffer_available false false false false st ∧
    ring_buffer_available false false false false (ring_buffer_rewind st len3).2
      = ring_buffer_available false false false false st := by
  have h1 : (ring_buffer_write st (some d) len).ring = st := by
    rw [ring_buffer_write] at hw ⊢
    by_cases hg : st.capacity - st.backlog + st.rewind - (st.write - st.read) ≥ len
    · rw [if_pos hg] at hw
      cases hw
    · rw [if_neg hg]
  have h2 : (ring_buffer_read st false len2).ring = st ∧
      (ring_buffer_read st false len2).data = [] := by
    rw [ring_buffer_read, if_neg (by decide : ¬(false = true))] at hr ⊢
    by_cases hg : st.write - st.read ≥ len2
    · rw [if_pos hg] at hr
      cases hr
    · rw [if_neg hg]
      exact ⟨rfl, rfl⟩
  have h3 : (ring_buffer_rewind st len3).2 = st := by
    rw [ring_buffer_rewind] at hrw ⊢
    by_cases hg : len3 ≤ st.backlog ∧ len3 ≤ st.read
    · rw [if_pos hg] at hrw
      cases hrw
    · rw [if_neg hg]
  exact ⟨h1, h2.1, h2.2, h3, by rw [h1], by rw [h2.1], by rw [h3]⟩

/-- Witness for C6: an almost-fresh store where a 5-byte write overflows,
a 1-byte read underflows, and a 1-byte rewind underflows. -/
theorem failure_atomicity_witness :
    (ring_buffer_write (ring_buffer_create 4 0 (fun _ => 0)) (some []) 5).ring
        = ring_buffer_create 4 0 (fun _ => 0) ∧
    (ring_buffer_read (ring_buffer_create 4 0 (fun _ => 0)) false 1).ring
        = ring_buffer_create 4 0 (fun _ => 0) ∧
    (ring_buffer_read (ring_buffer_create 4 0 (fun _ => 0)) false 1).data = [] ∧
    (ring_buffer_rewind (ring_buffer_create 4 0 (fun _ => 0)) 1).2
        = ring_buffer_create 4 0 (fun _ => 0) ∧
    ring_buffer_available false false false false
        (ring_buffer_write (ring_buffer_create 4 0 (fun _ => 0)) (some []) 5).ring
      = ring_buffer_available false false false false (ring_buffer_create 4 0 (fun _ => 0)) ∧
    ring_buffer_available false false false false
        (ring_buffer_read (ring_buffer_create 4 0 (fun _ => 0)) false 1).ring
      = ring_buffer_available false false false false (ring_buffer_create 4 0 (fun _ => 0)) ∧
    ring_buffer_available false false false false
        (ring_buffer_rewind (ring_buffer_create 4 0 (fun _ => 0)) 1).2
      = ring_buffer_available false false false false (ring_buffer_create 4 0 (fun _ => 0)) :=
  failure_atomicity (ring_buffer_create 4 0 (fun _ => 0)) [] 5 1 1
    (by decide) (by decide) (by decide)

/-- C10: in the rewind-capable variant, `ring_buffer_available` called
with valid ring/readable/writable pointers but a null rewindable pointer
does not return `InvalidAddress`: the null guard covers only the first
three, and the result is identical to a call with all pointers valid
(the C code stores through the rewindable pointer unconditionally). -/
theorem available_null_rewindable (st : RingBuffer) :
    (ring_buffer_available false false false true st).1 = Status.success ∧
    (ring_buffer_available false false false true st).1 ≠ Status.invalidAddress ∧
    ring_buffer_available false false false true st
      = ring_buffer_available false false false false st := by
  rw [ring_buffer_available, ring_buffer_available]
  rw [if_pos (by simp : ¬false = true ∧ ¬false = true ∧ ¬false = true)]
  exact ⟨rfl, nofun, rfl⟩

/-- C9: given `0 < capacity` and a transfer length `n ≤ capacity` (as
guaranteed by the overflow/underflow guards), both copy loops terminate
transferring all `n` bytes, in at most two iterations: the first moves
`min n (capacity - pos % capacity)` bytes, and the second, if present,
moves the remainder starting at physical offset 0. -/
theorem copy_loop_iterations (cap n w r len : Nat) (d : List Nat) (buf : Nat → Nat)
    (hcap : 0 < cap) (hn : n ≤ cap) :
    (writeLoop cap d len n buf w n).2.2
      = (if n = 0 then []
         else if n ≤ cap - w % cap then [(w % cap, n)]
         else [(w % cap, cap - w % cap), (0, n - (cap - w % cap))]) ∧
    (readLoop cap buf n r n).2.2
      = (if n = 0 then []
         else if n ≤ cap - r % cap then [(r % cap, n)]
         else [(r % cap, cap - r % cap), (0, n - (cap - r % cap))]) ∧
    (writeLoop cap d len n buf w n).2.2.length ≤ 2 ∧
    (readLoop cap buf n r n).2.2.length ≤ 2 ∧
    (writeLoop cap d len n buf w n).2.1 = w + n ∧
    (readLoop cap buf n r n).2.1 = r + n := by
  have hw := writeLoop_trace_eq cap d len n buf w n hcap (Nat.le_refl _) hn
  have hr := readLoop_trace_eq cap buf n r n hcap (Nat.le_refl _) hn
  refine ⟨hw, hr, ?_, ?_, ?_, ?_⟩
  · rw [hw]
    split <;> try split
    all_goals simp
  · rw [hr]
    split <;> try split
    all_goals simp
  · exact writeLoop_write_eq cap d len n buf w n hcap (Nat.le_refl _)
  · exact readLoop_read_eq cap buf n r n hcap (Nat.le_refl _)

/-- Witness for C9: capacity 4, transfer of 3 bytes starting at physical
offset 3 — two iterations, the second at offset 0. -/
theorem copy_loop_iterations_witness :
    ((writeLoop 4 [5, 6, 7] 3 3 (fun _ => 0) 3 3).2.2
      = (if 3 = 0 then []
         else if 3 ≤ 4 - 3 % 4 then [(3 % 4, 3)]
         else [(3 % 4, 4 - 3 % 4), (0, 3 - (4 - 3 % 4))]) ∧
    (readLoop 4 (fun _ => 0) 3 3 3).2.2
      = (if 3 = 0 then []
         else if 3 ≤ 4 - 3 % 4 then [(3 % 4, 3)]
         else [(3 % 4, 4 - 3 % 4), (0, 3 - (4 - 3 % 4))]) ∧
    (writeLoop 4 [5, 6, 7] 3 3 (fun _ => 0) 3 3).2.2.length ≤ 2 ∧
    (readLoop 4 (fun _ => 0) 3 3 3).2.2.length ≤ 2 ∧
    (writeLoop 4 [5, 6, 7] 3 3 (fun _ => 0) 3 3).2.1 = 3 + 3 ∧
    (readLoop 4 (fun _ => 0) 3 3 3).2.1 = 3 + 3) :=
  copy_loop_iterations 4 3 3 3 3 [5, 6, 7] (fun _ => 0) (by decide) (by decide)

/-- C5: for every sequence of successful operations from a fresh Ring
Store, `available` reports `0 ≤ readable ≤ capacity - backlog + rewind`
and `readable + writable = capacity - backlog + rewind` in the rewind
variant, and `readable + writable = capacity` in the non-rewind variant
(readable is a `Nat`, so `0 ≤ readable` is implicit). -/
theorem capacity_invariant (cap back : Nat) (init : Nat → Nat) (ops : List Op)
    (st : RingBuffer) (hcap : 0 < cap) (hback : back ≤ cap)
    (hrun : runOpsChecked (ring_buffer_create cap back init) ops = some st)
    (cap0 : Nat) (init0 : Nat → Nat) (ops0 : List Op0) (st0 : RingBuffer0)
    (hcap0 : 0 < cap0)
    (hrun0 : runOpsChecked0 (ring_buffer_create0 cap0 init0) ops0 = some st0) :
    (∃ rd wr rw, ring_buffer_available false false false false st
        = (Status.success, some (rd, wr, rw)) ∧
      rd ≤ cap - back + st.rewind ∧ rd + wr = cap - back + st.rewind) ∧
    (∃ rd wr, ring_buffer_available0 false false false st0
        = (Status.success, some (rd, wr)) ∧ rd ≤ cap0 ∧ rd + wr = cap0) := by
  obtain ⟨⟨hc, hb, hwr, hcb⟩, hceq, hbeq⟩ :=
    inv_runOpsChecked ops (ring_buffer_create cap back init) st
      (inv_create cap back init hcap hback) hrun
  obtain ⟨⟨hc0, hwr0, hcb0⟩, hceq0⟩ :=
    inv_runOpsChecked0 ops0 (ring_buffer_create0 cap0 init0) st0
      ⟨hcap0, by simp [ring_buffer_create0], by simp [ring_buffer_create0]⟩ hrun0
  simp only [ring_buffer_create] at hceq hbeq
  simp only [ring_buffer_create0] at hceq0
  constructor
  · refine ⟨st.write - st.read,
      st.capacity - st.backlog + st.rewind - (st.write - st.read),
      min st.read (st.backlog - st.rewind), ?_, ?_, ?_⟩
    · rw [ring_buffer_available,
        if_pos (by simp : ¬false = true ∧ ¬false = true ∧ ¬false = true)]
    · omega
    · omega
  · refine ⟨st0.write - st0.read, st0.capacity - (st0.write - st0.read), ?_, ?_, ?_⟩
    · rw [ring_buffer_available0,
        if_pos (by simp : ¬false = true ∧ ¬false = true ∧ ¬false = true)]
    · omega
    · omega

/-- Witness for C5: a write of three bytes followed by a read of one, on
both variants. -/
theorem capacity_invariant_witness :
    (∃ rd wr rw, ring_buffer_available false false false false
        ((runOpsChecked (ring_buffer_create 8 2 (fun _ => 0))
          [Op.write [1, 2, 3], Op.read 1]).getD (ring_buffer_create 8 2 (fun _ => 0)))
        = (Status.success, some (rd, wr, rw)) ∧
      rd ≤ 8 - 2 + ((runOpsChecked (ring_buffer_create 8 2 (fun _ => 0))
          [Op.write [1, 2, 3], Op.read 1]).getD (ring_buffer_create 8 2 (fun _ => 0))).rewind ∧
      rd + wr = 8 - 2 + ((runOpsChecked (ring_buffer_create 8 2 (fun _ => 0))
          [Op.write [1, 2, 3], Op.read 1]).getD (ring_buffer_create 8 2 (fun _ => 0))).rewind) ∧
    (∃ rd wr, ring_buffer_available0 false false false
        ((runOpsChecked0 (ring_buffer_create0 6 (fun _ => 0))
          [Op0.write [1, 2, 3], Op0.read 1]).getD (ring_buffer_create0 6 (fun _ => 0)))
        = (Status.success, some (rd, wr)) ∧ rd ≤ 6 ∧ rd + wr = 6) :=
  capacity_invariant 8 2 (fun _ => 0) [Op.write [1, 2, 3], Op.read 1]
    ((runOpsChecked (ring_buffer_create 8 2 (fun _ => 0))
      [Op.write [1, 2, 3], Op.read 1]).getD (ring_buffer_create 8 2 (fun _ => 0)))
    (by decide) (by decide) rfl
    6 (fun _ => 0) [Op0.write [1, 2, 3], Op0.read 1]
    ((runOpsChecked0 (ring_buffer_create0 6 (fun _ => 0))
      [Op0.write [1, 2, 3], Op0.read 1]).getD (ring_buffer_create0 6 (fun _ => 0)))
    (by decide) rfl

/-- Counterexample to C7: capacity 8, backlog 4.  The successful sequence
write 4, read 4, rewind 4 reaches a state with `read_pos = 0` and
`rewind_credit = 4`, so `rewind_credit ≤ min(read_pos, backlog) = 0`
fails (`ring_buffer_rewind` checks `length ≤ backlog` and
`length ≤ read` separately, not against the remaining credit). -/
theorem rewind_credit_cex :
    (runOpsChecked (ring_buffer_create 8 4 (fun _ => 0))
        [Op.write [1, 2, 3, 4], Op.read 4, Op.rewind 4]).map
      (fun st => (st.read, st.backlog, st.rewind)) = some (0, 4, 4) ∧
    ¬(4 ≤ min 0 4) := by
  refine ⟨by decide, by decide⟩

/-- C7 (amended): `rewind_credit ≤ min(read_pos, backlog)` is not an
invariant of reachable states (see the counterexample); what the code
guarantees is that each successful `rewind(length)` satisfies
`length ≤ backlog` and `length ≤ read_pos` at the call, and that every
reachable state satisfies `read_pos + rewind_credit ≤ write_pos`
(the banked credit never exceeds the bytes read so far). -/
theorem rewind_credit_amended (cap back : Nat) (init : Nat → Nat) (ops : List Op)
    (st : RingBuffer) (hcap : 0 < cap) (hback : back ≤ cap)
    (hrun : runOpsChecked (ring_buffer_create cap back init) ops = some st) :
    st.read + st.rewind ≤ st.write ∧
    ∀ len, (ring_buffer_rewind st len).1 = Status.success →
      len ≤ st.backlog ∧ len ≤ st.read := by
  obtain ⟨⟨hc, hb, hwr, hcb⟩, _, _⟩ :=
    inv_runOpsChecked ops _ st (inv_create cap back init hcap hback) hrun
  refine ⟨hwr, ?_⟩
  intro len h
  by_cases hg : len ≤ st.backlog ∧ len ≤ st.read
  · exact hg
  · rw [ring_buffer_rewind, if_neg hg] at h
    cases h

/-- Witness for the amended C7 at the counterexample's own sequence. -/
theorem rewind_credit_amended_witness :
    ((runOpsChecked (ring_buffer_create 8 4 (fun _ => 0))
        [Op.write [1, 2, 3, 4], Op.read 4, Op.rewind 4]).getD
        (ring_buffer_create 8 4 (fun _ => 0))).read +
      ((runOpsChecked (ring_buffer_create 8 4 (fun _ => 0))
        [Op.write [1, 2, 3, 4], Op.read 4, Op.rewind 4]).getD
        (ring_buffer_create 8 4 (fun _ => 0))).rewind ≤
      ((runOpsChecked (ring_buffer_create 8 4 (fun _ => 0))
        [Op.write [1, 2, 3, 4], Op.read 4, Op.rewind 4]).getD
        (ring_buffer_create 8 4 (fun _ => 0))).write ∧
    ∀ len, (ring_buffer_rewind
        ((runOpsChecked (ring_buffer_create 8 4 (fun _ => 0))
          [Op.write [1, 2, 3, 4], Op.read 4, Op.rewind 4]).getD
          (ring_buffer_create 8 4 (fun _ => 0))) len).1 = Status.success →
      len ≤ ((runOpsChecked (ring_buffer_create 8 4 (fun _ => 0))
          [Op.write [1, 2, 3, 4], Op.read 4, Op.rewind 4]).getD
          (ring_buffer_create 8 4 (fun _ => 0))).backlog ∧
      len ≤ ((runOpsChecked (ring_buffer_create 8 4 (fun _ => 0))
          [Op.write [1, 2, 3, 4], Op.read 4, Op.rewind 4]).getD
          (ring_buffer_create 8 4 (fun _ => 0))).read :=
  rewind_credit_amended 8 4 (fun _ => 0)
    [Op.write [1, 2, 3, 4], Op.read 4, Op.rewind 4]
    ((runOpsChecked (ring_buffer_create 8 4 (fun _ => 0))
      [Op.write [1, 2, 3, 4], Op.read 4, Op.rewind 4]).getD
      (ring_buffer_create 8 4 (fun _ => 0)))
    (by decide) (by decide) rfl

/-- Counterexample to C8: read callback registered at threshold 1 on a
fresh capacity-8 store.  The first 1-byte write brings readable from 0 to
1 and fires the callback; the second 1-byte write keeps readable at or
above the threshold (1 to 2) without it ever dropping below, yet the
callback fires again — the code fires on every successful write whose
post-state meets the threshold, not only on upward crossings. -/
theorem threshold_callback_cex :
    (ring_buffer_write (ring_buffer_set_read_callback
        (ring_buffer_create 8 0 (fun _ => 0)) true 1).2 (some [5]) 1).status
      = Status.success ∧
    (ring_buffer_write (ring_buffer_set_read_callback
        (ring_buffer_create 8 0 (fun _ => 0)) true 1).2 (some [5]) 1).notified = true ∧
    (ring_buffer_write (ring_buffer_set_read_callback
        (ring_buffer_create 8 0 (fun _ => 0)) true 1).2 (some [5]) 1).ring.write -
      (ring_buffer_write (ring_buffer_set_read_callback
        (ring_buffer_create 8 0 (fun _ => 0)) true 1).2 (some [5]) 1).ring.read = 1 ∧
    (ring_buffer_write (ring_buffer_write (ring_buffer_set_read_callback
        (ring_buffer_create 8 0 (fun _ => 0)) true 1).2 (some [5]) 1).ring
      (some [6]) 1).status = Status.success ∧
    (ring_buffer_write (ring_buffer_write (ring_buffer_set_read_callback
        (ring_buffer_create 8 0 (fun _ => 0)) true 1).2 (some [5]) 1).ring
      (some [6]) 1).ring.write -
      (ring_buffer_write (ring_buffer_write (ring_buffer_set_read_callback
        (ring_buffer_create 8 0 (fun _ => 0)) true 1).2 (some [5]) 1).ring
      (some [6]) 1).ring.read = 2 ∧
    (ring_buffer_write (ring_buffer_write (ring_buffer_set_read_callback
        (ring_buffer_create 8 0 (fun _ => 0)) true 1).2 (some [5]) 1).ring
      (some [6]) 1).notified = true := by
  refine ⟨by decide, by decide, by decide, by decide, by decide, by decide⟩

/-- C8 (amended): with a read callback registered at threshold T, a
successful write invokes the callback (exactly once, after the mutation)
iff the post-write readable count is at least T — level-triggered, with
no memory of earlier firings; a failed write never invokes it. -/
theorem write_callback_level (st : RingBuffer) (d : List Nat) (len : Nat)
    (hset : st.readCallbackSet = true) :
    ((ring_buffer_write st (some d) len).status = Status.success →
      ((ring_buffer_write st (some d) len).notified = true ↔
        st.readThreshold ≤ (ring_buffer_write st (some d) len).ring.write
          - (ring_buffer_write st (some d) len).ring.read)) ∧
    ((ring_buffer_write st (some d) len).status ≠ Status.success →
      (ring_buffer_write st (some d) len).notified = false) := by
  rw [ring_buffer_write]
  by_cases hg : st.capacity - st.backlog + st.rewind - (st.write - st.read) ≥ len
  · rw [if_pos hg]
    refine ⟨fun _ => ?_, fun h => absurd rfl h⟩
    simp [hset, ge_iff_le]
  · rw [if_neg hg]
    exact ⟨nofun, fun _ => rfl⟩

/-- Witness for the amended C8: threshold 2, a 2-byte write on a fresh
store. -/
theorem write_callback_level_witness :
    ((ring_buffer_write (ring_buffer_set_read_callback
        (ring_buffer_create 8 0 (fun _ => 0)) true 2).2 (some [1, 2]) 2).status
        = Status.success →
      ((ring_buffer_write (ring_buffer_set_read_callback
          (ring_buffer_create 8 0 (fun _ => 0)) true 2).2 (some [1, 2]) 2).notified = true ↔
        (ring_buffer_set_read_callback
          (ring_buffer_create 8 0 (fun _ => 0)) true 2).2.readThreshold ≤
          (ring_buffer_write (ring_buffer_set_read_callback
            (ring_buffer_create 8 0 (fun _ => 0)) true 2).2 (some [1, 2]) 2).ring.write -
          (ring_buffer_write (ring_buffer_set_read_callback
            (ring_buffer_create 8 0 (fun _ => 0)) true 2).2 (some [1, 2]) 2).ring.read)) ∧
    ((ring_buffer_write (ring_buffer_set_read_callback
        (ring_buffer_create 8 0 (fun _ => 0)) true 2).2 (some [1, 2]) 2).status
        ≠ Status.success →
      (ring_buffer_write (ring_buffer_set_read_callback
        (ring_buffer_create 8 0 (fun _ => 0)) true 2).2 (some [1, 2]) 2).notified = false) :=
  write_callback_level (ring_buffer_set_read_callback
    (ring_buffer_create 8 0 (fun _ => 0)) true 2).2 [1, 2] 2 (by decide)
